import Mathlib

set_option maxRecDepth 16384
set_option exponentiation.threshold 1100

/-!
Shallow embedding of the machship/flag layered configuration resolver.

Strings are modelled as lists of characters (`Str`).  File systems are
modelled as partial maps from paths to contents (`Option` results; `none`
means the read failed).  Go maps keyed by flag names are modelled as
association lists looked up by first match, matching the uniqueness
invariant enforced by `FlagSet.Var` (duplicate registration panics).
-/

namespace MFlag

/-- Character strings, modelled as lists of characters. -/
abbrev Str := List Char

/-- Lower-case one ASCII character (model of Go `lower` on ASCII input). -/
def lowerCh (c : Char) : Char :=
  if 'A' ≤ c ∧ c ≤ 'Z' then Char.ofNat (c.toNat + 32) else c

/-- Upper-case one ASCII character. -/
def upperCh (c : Char) : Char :=
  if 'a' ≤ c ∧ c ≤ 'z' then Char.ofNat (c.toNat - 32) else c

/-- Model of `strings.ToLower` on ASCII input. -/
def lowerStr (s : Str) : Str := s.map lowerCh

/-- Model of `strings.ToUpper` on ASCII input. -/
def upperStr (s : Str) : Str := s.map upperCh

/-- Model of `strings.EqualFold` on ASCII input. -/
def strEqFold (s t : Str) : Bool := lowerStr s = lowerStr t

/-- Whether `s` starts with the literal `pre` (model of `strings.HasPrefix`). -/
def strStarts (s pre : Str) : Bool :=
  match pre, s with
  | [], _ => true
  | _ :: _, [] => false
  | p :: ps, c :: cs => (c = p) && strStarts cs ps

/-- Model of single-character `strings.Replace(s, a, b, -1)` / `ReplaceAll`. -/
def replaceCh (a b : Char) (s : Str) : Str :=
  s.map (fun c => if c = a then b else c)

/-- Model of `strings.TrimRight(s, cutset)` for the cutset of CR and LF:
every trailing carriage return or newline character is removed. -/
def trimRightCRLF (s : Str) : Str :=
  (s.reverse.dropWhile (fun c => c = '\r' || c = '\n')).reverse

/-- Model of `strings.Join(xs, sep)`. -/
def joinStr (sep : Str) : List Str → Str
  | [] => []
  | [x] => x
  | x :: y :: rest => x ++ sep ++ joinStr sep (y :: rest)

/-- Result of `expandAtFile`: the Go function returns a string and an error,
where the sentinel `errNoAtExpansion` marks that no expansion occurred. -/
inductive Expand where
  | noExp
  | err (msg : Str)
  | ok (v : Str)
  deriving DecidableEq

/-- Error message used for an empty path after the at sign. -/
def emptyPathMsg : Str := ("invalid @file reference: empty path").toList

/-- Stand-in message for an `os.ReadFile` error propagated by `expandAtFile`. -/
def readErrMsg : Str := ("file read error").toList

/-- Model of `expandAtFile` (fuzz_secret_precedence_test.go:251-270): a value
beginning with an at sign names a file whose contents (with trailing CR/LF
trimmed by `trimRightCRLF`) replace the value; a double at sign escapes to a
literal at sign; other values signal that no expansion occurred. -/
def expandAtFile (fsys : Str → Option Str) (val : Str) : Expand :=
  match val with
  | [] => .noExp
  | c :: rest =>
    if c ≠ '@' then .noExp
    else if strStarts val (['@', '@']) then .ok rest
    else if rest = [] then .err emptyPathMsg
    else
      match fsys rest with
      | Option.none => .err readErrMsg
      | Option.some b => .ok (trimRightCRLF b)

/-- Kind of error returned by the Go `strconv` number parsers. -/
inductive GoNumErr where
  | errSyn
  | errRange
  deriving DecidableEq

/-- Model of `strconv.ParseBool`: the boolean result and whether an error was
returned.  On error Go returns `false`. -/
def parseBoolGo (s : Str) : Bool × Bool :=
  if s ∈ [("1").toList, ("t").toList, ("T").toList, ("true").toList,
          ("TRUE").toList, ("True").toList] then (true, false)
  else if s ∈ [("0").toList, ("f").toList, ("F").toList, ("false").toList,
               ("FALSE").toList, ("False").toList] then (false, false)
  else (false, true)

/-- Largest value of a 64-bit unsigned integer. -/
def maxU64 : Nat := 2 ^ 64 - 1

/-- Decimal digit test. -/
def isDigitCh (c : Char) : Bool := '0' ≤ c ∧ c ≤ '9'

/-- Value of one digit character in bases up to 36 (model of the digit
decoding inside `strconv.ParseUint`). -/
def digitVal (c : Char) : Option Nat :=
  if isDigitCh c then Option.some (c.toNat - '0'.toNat)
  else if 'a' ≤ lowerCh c ∧ lowerCh c ≤ 'z' then
    Option.some ((lowerCh c).toNat - 'a'.toNat + 10)
  else Option.none

/-- Model of `strconv`'s `underscoreOK`: underscores must separate successive
digits, where a leading base marker also counts as a digit context. -/
def underscoreOKGo (s0 : Str) : Bool :=
  let s := match s0 with
    | c :: rest => if c = '-' ∨ c = '+' then rest else s0
    | [] => s0
  let (start, saw0, hex) : Str × Char × Bool := match s with
    | '0' :: b :: rest =>
      if lowerCh b = 'b' ∨ lowerCh b = 'o' ∨ lowerCh b = 'x' then
        (rest, '0', lowerCh b = 'x')
      else (s, '^', false)
    | _ => (s, '^', false)
  go hex start saw0
where
  /-- Scanning loop of `underscoreOK`; `saw` is the class of the previous
  character as in the Go source. -/
  go (hex : Bool) : Str → Char → Bool
  | [], saw => saw ≠ '_'
  | c :: cs, saw =>
    if isDigitCh c ∨ (hex ∧ 'a' ≤ lowerCh c ∧ lowerCh c ≤ 'f') then
      go hex cs '0'
    else if c = '_' then
      if saw ≠ '0' then false else go hex cs '_'
    else if saw = '_' then false
    else go hex cs '!'

/-- Digit-accumulation loop of `strconv.ParseUint` (base 0 model): returns the
accumulated value, the error if any, and whether an underscore was seen.
A bad digit returns value 0 with a syntax error; exceeding the 64-bit range
returns `maxU64` with a range error, as in the Go source. -/
def scanU (base : Nat) : Str → Nat → Bool → Nat × Option GoNumErr × Bool
  | [], n, usc => (n, Option.none, usc)
  | c :: cs, n, usc =>
    if c = '_' then scanU base cs n true
    else
      match digitVal c with
      | Option.none => (0, Option.some .errSyn, usc)
      | Option.some d =>
        if base ≤ d then (0, Option.some .errSyn, usc)
        else if maxU64 < n * base + d then (maxU64, Option.some .errRange, usc)
        else scanU base cs (n * base + d) usc

/-- Base detection of `strconv.ParseUint` when called with base 0: a `0b`,
`0o` or `0x` marker (requiring at least one further character), a bare
leading zero meaning octal, or decimal. -/
def detectBase (s : Str) : Nat × Str :=
  match s with
  | '0' :: b :: rest =>
    if lowerCh b = 'b' ∧ rest ≠ [] then (2, rest)
    else if lowerCh b = 'o' ∧ rest ≠ [] then (8, rest)
    else if lowerCh b = 'x' ∧ rest ≠ [] then (16, rest)
    else (8, b :: rest)
  | '0' :: [] => (8, [])
  | _ => (10, s)

/-- Model of `strconv.ParseUint(s, 0, 64)`: result value and error. On a
syntax error Go returns 0; on a range error it returns `maxU64`. -/
def parseUint64Go (s0 : Str) : Nat × Option GoNumErr :=
  if s0 = [] then (0, Option.some .errSyn)
  else
    match (scanU (detectBase s0).1 (detectBase s0).2 0 false).2.1 with
    | Option.some er => ((scanU (detectBase s0).1 (detectBase s0).2 0 false).1,
        Option.some er)
    | Option.none =>
      if (scanU (detectBase s0).1 (detectBase s0).2 0 false).2.2
          ∧ ¬ underscoreOKGo s0 then (0, Option.some .errSyn)
      else ((scanU (detectBase s0).1 (detectBase s0).2 0 false).1, Option.none)

/-- Largest 64-bit signed integer. -/
def i64max : Int := 2 ^ 63 - 1

/-- Smallest 64-bit signed integer. -/
def i64min : Int := -(2 ^ 63)

/-- The sign-stripped body handed by `ParseInt` to `ParseUint`. -/
def intBody (c : Char) (rest : Str) : Str :=
  if c = '-' ∨ c = '+' then rest else c :: rest

/-- Model of `strconv.ParseInt(s, 0, 64)`: result value and error.  On a
syntax error Go returns 0; on a range error it returns the clamped bound. -/
def parseInt64Go (s : Str) : Int × Option GoNumErr :=
  match s with
  | [] => (0, Option.some .errSyn)
  | c :: rest =>
    if (parseUint64Go (intBody c rest)).2 = Option.some GoNumErr.errSyn then
      (0, Option.some .errSyn)
    else
      if ¬ (c = '-') ∧ 2 ^ 63 ≤ (parseUint64Go (intBody c rest)).1 then
        (i64max, Option.some .errRange)
      else if (c = '-') ∧ 2 ^ 63 < (parseUint64Go (intBody c rest)).1 then
        (i64min, Option.some .errRange)
      else ((if c = '-' then -((parseUint64Go (intBody c rest)).1 : Int)
        else ((parseUint64Go (intBody c rest)).1 : Int)),
        (parseUint64Go (intBody c rest)).2)

/-- Typed value cell of a flag (the `Value` implementations used by the
resolution claims: `stringValue`, `boolValue`, `intValue`). -/
inductive FValue where
  | str (s : Str)
  | boolean (b : Bool)
  | int (i : Int)
  deriving DecidableEq

/-- Whether the value cell is a `boolFlag` whose `IsBoolFlag` returns true
(only `boolValue` among the modelled cells). -/
def isBoolF : FValue → Bool
  | .boolean _ => true
  | _ => false

/-- Model of `Value.Set` for the modelled cells: the new cell contents and
whether an error was returned.  Each Go implementation stores the result of
the conversion before returning its error. -/
def fvSet (v : FValue) (s : Str) : FValue × Bool :=
  match v with
  | .str _ => (.str s, false)
  | .boolean _ =>
    let (b, e) := parseBoolGo s
    (.boolean b, e)
  | .int _ =>
    let (i, e) := parseInt64Go s
    (.int i, e.isSome)

/-- Decimal rendering of a natural number. -/
def natToStr (n : Nat) : Str := Nat.toDigits 10 n

/-- Model of `Value.String` for the modelled cells. -/
def fvStr : FValue → Str
  | .str s => s
  | .boolean b => if b then ("true").toList else ("false").toList
  | .int i => if i < 0 then '-' :: natToStr i.natAbs else natToStr i.natAbs

/-- State of a `FlagSet` during resolution: `formal` is the registry of
declared flags (name and value cell), `actual` the list of names recorded as
set, `args` the remaining argument list and `envPre` the environment prefix. -/
structure St where
  formal : List (Str × FValue)
  actual : List Str
  args : List Str
  envPre : Str
  deriving DecidableEq

/-- First-match lookup in the `formal` registry (Go map lookup under the
uniqueness invariant of `FlagSet.Var`). -/
def lookupF : List (Str × FValue) → Str → Option FValue
  | [], _ => Option.none
  | (k, v) :: rest, nm => if k = nm then Option.some v else lookupF rest nm

/-- Update the value cell of the named flag in the registry. -/
def updF : List (Str × FValue) → Str → FValue → List (Str × FValue)
  | [], _, _ => []
  | (k, v) :: rest, nm, nv =>
    if k = nm then (k, nv) :: rest else (k, v) :: updF rest nm nv

/-- Write `s` into the named flag through `Value.Set`; the write lands even
when `Set` errors, as in the Go cells. -/
def setFlagVal (st : St) (nm : Str) (fv : FValue) (s : Str) : St × Bool :=
  ({ st with formal := updF st.formal nm (fvSet fv s).1 }, (fvSet fv s).2)

/-- Record a flag into `actual` (map insert: at most one entry per name). -/
def recordActual (st : St) (nm : Str) : St :=
  if nm ∈ st.actual then st else { st with actual := st.actual ++ [nm] }


/-- Errors surfaced by the passes: the distinguished `ErrHelp` and ordinary
`failf` errors. -/
inductive PErr where
  | help
  | fail (msg : Str)
  deriving DecidableEq

/-- The Set-then-record sequence shared by the pass bodies: write the value
(the write lands even on error), fail with the given message when `Set`
errored, otherwise record the flag into `actual`. -/
def applySet (st : St) (nm : Str) (fv : FValue) (s : Str) (msg : Str) : St × Option PErr :=
  if (setFlagVal st nm fv s).2 then
    ((setFlagVal st nm fv s).1, Option.some (.fail msg))
  else (recordActual (setFlagVal st nm fv s).1 nm, Option.none)

/-- Variant for the boolean bare-value branches of the environment and
config-file passes, whose `Set("true")` result is not checked before the
flag is recorded. -/
def applySetIgnoreErr (st : St) (nm : Str) (fv : FValue) (s : Str) : St × Option PErr :=
  (recordActual (setFlagVal st nm fv s).1 nm, Option.none)

/-- Message of `bad flag syntax`. -/
def badSyntaxMsg : Str := ("bad flag syntax").toList

/-- Message of `flag provided but not defined`. -/
def notDefinedMsg : Str := ("flag provided but not defined").toList

/-- Message of `flag needs an argument`. -/
def needsArgMsg : Str := ("flag needs an argument").toList

/-- Message of an invalid value on the command line. -/
def invalidValueMsg : Str := ("invalid value").toList

/-- Search for the first equal sign in the tail of a flag token (the scan
`for i := 1; i < len(name)` inside `parseOne`). -/
def splitAtEq : Str → Option (Str × Str)
  | [] => Option.none
  | c :: cs =>
    if c = '=' then Option.some ([], cs)
    else (splitAtEq cs).map (fun p => (c :: p.1, p.2))

/-- Split a CLI token body at its first equal sign after position 0,
returning the name, the value and whether a value was attached. -/
def splitEq (name : Str) : Str × Str × Bool :=
  match name with
  | [] => ([], [], false)
  | c :: rest =>
    match splitAtEq rest with
    | Option.none => (name, [], false)
    | Option.some (pre, post) => (c :: pre, post, true)

/-- The literal `test.`. -/
def testDotS : Str := ("test.").toList

/-- The literal `help`. -/
def helpS : Str := ("help").toList

/-- The literal `h`. -/
def hS : Str := ("h").toList

/-- Model of `FlagSet.parseOne` (part_005:1029-1102): parse one CLI token,
returning whether a flag was seen, the error if any, and the new state. -/
def parseOne (st : St) : Bool × Option PErr × St :=
  match st.args with
  | [] => (false, Option.none, st)
  | s :: restArgs =>
    match s with
    | [] => (false, Option.none, st)
    | c0 :: s1 =>
      if c0 ≠ '-' then (false, Option.none, st)
      else if s1 = [] then (false, Option.none, st)
      else
        let name := match s1 with
          | '-' :: s2 => s2
          | _ => s1
        let twoMinus : Bool := match s1 with
          | '-' :: _ => true
          | _ => false
        if twoMinus ∧ name = [] then (false, Option.none, { st with args := restArgs })
        else
          match name with
          | [] => (false, Option.some (.fail badSyntaxMsg), st)
          | nc :: _ =>
            if nc = '-' ∨ nc = '=' then (false, Option.some (.fail badSyntaxMsg), st)
            else if strStarts name testDotS then (false, Option.none, st)
            else
              let st1 := { st with args := restArgs }
              let (nm, value, hasV) := splitEq name
              match lookupF st1.formal nm with
              | Option.none =>
                if nm = helpS ∨ nm = hS then (false, Option.some .help, st1)
                else (false, Option.some (.fail notDefinedMsg), st1)
              | Option.some fv =>
                if isBoolF fv then
                  let arg := if hasV then value else ("true").toList
                  let (st2, e) := setFlagVal st1 nm fv arg
                  if e then (false, Option.some (.fail invalidValueMsg), st2)
                  else (true, Option.none, recordActual st2 nm)
                else
                  let (value2, hasV2, st2) :=
                    if ¬ hasV then
                      match st1.args with
                      | a :: more => (a, true, { st1 with args := more })
                      | [] => (value, false, st1)
                    else (value, hasV, st1)
                  if ¬ hasV2 then (false, Option.some (.fail needsArgMsg), st2)
                  else
                    let (st3, e) := setFlagVal st2 nm fv value2
                    if e then (false, Option.some (.fail invalidValueMsg), st3)
                    else (true, Option.none, recordActual st3 nm)

/-- The CLI scanning loop of `FlagSet.Parse`: repeat `parseOne` while a flag
is seen; fuel bounds the iteration count. -/
def cliLoop : Nat → St → St × Option PErr
  | 0, st => (st, Option.none)
  | fuel + 1, st =>
    match parseOne st with
    | (true, _, st1) => cliLoop fuel st1
    | (false, e, st1) => (st1, e)

/-- Generic driver of one pass: apply the step to each work item in order,
stopping at the first error (the Go passes return the error immediately,
keeping the mutations already committed). -/
def passFold (step : St → α → St × Option PErr) : St → List α → St × Option PErr
  | st, [] => (st, Option.none)
  | st, x :: xs =>
    match step st x with
    | (st1, Option.some e) => (st1, Option.some e)
    | (st1, Option.none) => passFold step st1 xs

/-- Message of `environment variable provided but not defined`. -/
def envNotDefMsg : Str := ("environment variable provided but not defined").toList

/-- Message of an invalid environment value. -/
def envInvalidMsg : Str := ("invalid value for environment variable").toList

/-- Split one `KEY=VALUE` entry of the environment; entries without an equal
sign past position 0 are skipped by `ParseEnv`. -/
def envEntrySplit (s : Str) : Option (Str × Str) :=
  match s with
  | [] => Option.none
  | c :: rest =>
    if c = '=' then Option.none
    else
      match splitAtEq rest with
      | Option.none => Option.none
      | Option.some (pre, post) => Option.some (c :: pre, post)

/-- Build the environment map of `ParseEnv`; later entries overwrite earlier
ones, as with repeated Go map assignment. -/
def buildEnvMap : List Str → List (Str × Str)
  | [] => []
  | s :: rest =>
    match envEntrySplit s with
    | Option.none => buildEnvMap rest
    | Option.some kv => kv :: buildEnvMap rest

/-- Lookup in the environment map with last-assignment-wins semantics. -/
def envLookup (m : List (Str × Str)) (k : Str) : Option Str :=
  match m with
  | [] => Option.none
  | (k0, v0) :: rest =>
    match envLookup rest k with
    | Option.some v => Option.some v
    | Option.none => if k0 = k then Option.some v0 else Option.none

/-- Environment key of a flag: upper-cased name, optionally prefixed, with
dashes replaced by underscores (fuzz_secret_precedence_test.go:81-85). -/
def envKeyOf (pre nm : Str) : Str :=
  let k := upperStr nm
  let k := if pre ≠ [] then pre ++ '_' :: k else k
  replaceCh '-' '_' k

/-- One iteration of the `ParseEnv` loop over the formal flags
(fuzz_secret_precedence_test.go:65-127). -/
def envStep (envm : List (Str × Str)) (fsys : Str → Option Str) (st : St) (nm : Str) :
    St × Option PErr :=
  if nm ∈ st.actual then (st, Option.none)
  else
    match lookupF st.formal nm with
    | Option.none =>
      if nm = helpS ∨ nm = hS then (st, Option.some .help)
      else (st, Option.some (.fail envNotDefMsg))
    | Option.some fv =>
      match envLookup envm (envKeyOf st.envPre nm) with
      | Option.none => (st, Option.none)
      | Option.some value =>
        if isBoolF fv ∧ value = [] then
          applySetIgnoreErr st nm fv (("true").toList)
        else
          match expandAtFile fsys value with
          | .err _ => (st, Option.some (.fail envInvalidMsg))
          | .ok v => applySet st nm fv v envInvalidMsg
          | .noExp => applySet st nm fv value envInvalidMsg

/-- Model of `FlagSet.ParseEnv`: iterate over the declared flags, filling
each unset flag from the environment. -/
def parseEnvGo (environ : List Str) (fsys : Str → Option Str) (st : St) :
    St × Option PErr :=
  passFold (envStep (buildEnvMap environ) fsys) st (st.formal.map (fun p => p.1))

/-- Message of `configuration variable provided but not defined`. -/
def cfgNotDefMsg : Str := ("configuration variable provided but not defined").toList

/-- Message of an invalid configuration value. -/
def cfgInvalidMsg : Str := ("invalid value for configuration variable").toList

/-- Message of a config-file open error. -/
def openErrMsg : Str := ("config open error").toList

/-- Split a config line at the first equal sign or space (the scan
`for i, v := range line` in `ParseFile`), returning name, value and whether
a value was present. -/
def splitKV : Str → Str × Str × Bool
  | [] => ([], [], false)
  | c :: cs =>
    if c = '=' ∨ c = ' ' then ([], cs, true)
    else
      let (nm, v, hv) := splitKV cs
      if hv then (c :: nm, v, true) else (c :: cs, [], false)

/-- One line of `ParseFile` (fuzz_secret_precedence_test.go:163-235): blank
lines and comment lines are ignored, known unset flags are filled, unknown
names error (`help`/`h` yield the help signal). -/
def fileLineStep (fsys : Str → Option Str) (st : St) (line : Str) : St × Option PErr :=
  if line = [] then (st, Option.none)
  else if strStarts line (['#']) then (st, Option.none)
  else if (splitKV line).1 ∈ st.actual then (st, Option.none)
  else
    match lookupF st.formal (splitKV line).1 with
    | Option.none =>
      if (splitKV line).1 = helpS ∨ (splitKV line).1 = hS then (st, Option.some .help)
      else (st, Option.some (.fail cfgNotDefMsg))
    | Option.some fv =>
      if isBoolF fv ∧ ¬ (splitKV line).2.2 then
        applySetIgnoreErr st (splitKV line).1 fv (("true").toList)
      else
        match expandAtFile fsys (splitKV line).2.1 with
        | .err _ => (st, Option.some (.fail cfgInvalidMsg))
        | .ok v => applySet st (splitKV line).1 fv v cfgInvalidMsg
        | .noExp => applySet st (splitKV line).1 fv (splitKV line).2.1 cfgInvalidMsg

/-- Model of `FlagSet.ParseFile`: open the file (a map from paths to line
lists; `Option.none` is an open error) and process each line in order. -/
def parseFileGo (fileFs : Str → Option (List Str)) (path : Str)
    (fsys : Str → Option Str) (st : St) : St × Option PErr :=
  match fileFs path with
  | Option.none => (st, Option.some (.fail openErrMsg))
  | Option.some lines => passFold (fileLineStep fsys) st lines

/-- One directory entry seen by `ParseSecretDir`. -/
structure SecretEnt where
  name : Str
  isDir : Bool
  content : Option Str
  deriving DecidableEq

/-- Message of a secret-file read error. -/
def secretReadErrMsg : Str := ("secret read error").toList

/-- Message of an invalid secret value. -/
def secretInvalidMsg : Str := ("secret file invalid").toList

/-- First candidate name that matches a declared flag
(`ParseSecretDir` tries the lower-cased filename, then the lower-cased
filename with underscores turned into dashes). -/
def firstCand (formal : List (Str × FValue)) : List Str → Option (Str × FValue)
  | [] => Option.none
  | c :: cs =>
    match lookupF formal c with
    | Option.some fv => Option.some (c, fv)
    | Option.none => firstCand formal cs

/-- One entry of `ParseSecretDir` (fuzz_secret_precedence_test.go:282-324):
directories are skipped, unmatched files are skipped, recorded flags are
skipped; contents are trimmed of trailing CR/LF, booleans special-cased, and
at-file expansion is attempted with its failure ignored. -/
def secretStep (fsys : Str → Option Str) (st : St) (e : SecretEnt) : St × Option PErr :=
  if e.isDir then (st, Option.none)
  else
    match firstCand st.formal
        [lowerStr e.name, replaceCh '_' '-' (lowerStr e.name)] with
    | Option.none => (st, Option.none)
    | Option.some (target, fv) =>
      if target ∈ st.actual then (st, Option.none)
      else
        match e.content with
        | Option.none => (st, Option.some (.fail secretReadErrMsg))
        | Option.some data =>
          if isBoolF fv ∧ (trimRightCRLF data = [] ∨
              strEqFold (trimRightCRLF data) (("true").toList)) then
            applySet st target fv (("true").toList) secretInvalidMsg
          else
            match expandAtFile fsys (trimRightCRLF data) with
            | .ok v => applySet st target fv v secretInvalidMsg
            | .err _ => applySet st target fv (trimRightCRLF data) secretInvalidMsg
            | .noExp => applySet st target fv (trimRightCRLF data) secretInvalidMsg

/-- Model of `FlagSet.ParseSecretDir`: process the directory entries in
order (`os.ReadDir` listing). -/
def parseSecretDirGo (fsys : Str → Option Str) (entries : List SecretEnt) (st : St) :
    St × Option PErr :=
  passFold (secretStep fsys) st entries

/-- The value of `DefaultConfigFlagname`. -/
def configNameS : Str := ("config").toList

/-- The value of `DefaultSecretDirFlagname`. -/
def secretDirNameS : Str := ("secret-dir").toList

/-- Model of `FlagSet.Parse` (part_005:1108-1160) with the
`ContinueOnError` policy: the CLI scanning loop, then `ParseEnv`, then the
config-file pass gated on the config flag resolving to a non-empty path.
The function body contains no invocation of the secret-directory pass. -/
def parseGo (environ : List Str) (fileFs : Str → Option (List Str))
    (fsys : Str → Option Str) (st : St) : St × Option PErr :=
  match cliLoop (st.args.length + 1) st with
  | (st1, Option.some e) => (st1, Option.some e)
  | (st1, Option.none) =>
    match parseEnvGo environ fsys st1 with
    | (st2, Option.some e) => (st2, Option.some e)
    | (st2, Option.none) =>
      let cFile := match lookupF st2.formal configNameS with
        | Option.some cf => fvStr cf
        | Option.none => []
      let cFile := if configNameS ∈ st2.actual then
          match lookupF st2.formal configNameS with
          | Option.some cf => fvStr cf
          | Option.none => cFile
        else cFile
      if cFile ≠ [] then parseFileGo fileFs cFile fsys st2
      else (st2, Option.none)

/-- Value of a float64 as used by the validation checks: a finite value in
exact scaled-decimal form (`num / 10 ^ den`), an infinity, or not-a-number.
Rounding of real float64 arithmetic is not modelled; the validation claims
do not depend on it. -/
inductive GoFloat where
  | fin (num : Int) (den : Nat)
  | inf (neg : Bool)
  | nan
  deriving DecidableEq

/-- Less-than on float64 values: comparisons with NaN are false; finite
values compare by cross-multiplication of their decimal scales. -/
def gfLT : GoFloat → GoFloat → Bool
  | .nan, _ => false
  | _, .nan => false
  | .inf true, .inf true => false
  | .inf true, _ => true
  | _, .inf true => false
  | .inf false, _ => false
  | .fin _ _, .inf false => true
  | .fin a da, .fin b db => a * (10 : Int) ^ db < b * (10 : Int) ^ da

/-- Greater-than on float64 values. -/
def gfGT (a b : GoFloat) : Bool := gfLT b a

/-- Largest finite float64 value, as an exact integer. -/
def maxF64 : Int := ((2 ^ 53 - 1) * 2 ^ 971 : Nat)

/-- Consume leading decimal digits, returning their value, their count and
the remaining characters. -/
def takeDigits : Str → Nat × Nat × Str
  | [] => (0, 0, [])
  | c :: cs =>
    if isDigitCh c then
      let (v, n, r) := takeDigits cs
      ((c.toNat - '0'.toNat) * 10 ^ n + v, n + 1, r)
    else (0, 0, c :: cs)

/-- Model of `strconv.ParseFloat(s, 64)`: the returned value and whether an
error was returned.  Decimal mantissas with optional fraction and decimal
exponent are modelled, along with the case-insensitive `inf`, `infinity`
and `nan` specials; out-of-range magnitudes overflow to an infinity with a
range error, and a syntax error returns zero.  Hexadecimal floats and digit
underscores are outside the model. -/
def parseFloatGo (s : Str) : GoFloat × Bool :=
  match s with
  | [] => (.fin 0 0, true)
  | c :: rest =>
    let neg := c = '-'
    let body := if c = '-' ∨ c = '+' then rest else s
    if strEqFold body (("inf").toList) ∨ strEqFold body (("infinity").toList) then
      (.inf neg, false)
    else if strEqFold body (("nan").toList) then (.nan, false)
    else
      let (iv, ic, r1) := takeDigits body
      let (fv, fc, r2) := match r1 with
        | '.' :: r1a =>
          let (fv, fc, r) := takeDigits r1a
          (fv, fc, r)
        | _ => (0, 0, r1)
      if ic + fc = 0 then (.fin 0 0, true)
      else
        let eres : Option Int := match r2 with
          | [] => Option.some 0
          | ce :: r3 =>
            if ce = 'e' ∨ ce = 'E' then
              let (eneg, r4) := match r3 with
                | '-' :: r4a => (true, r4a)
                | '+' :: r4a => (false, r4a)
                | _ => (false, r3)
              let (ev, ec, r5) := takeDigits r4
              if ec = 0 ∨ r5 ≠ [] then Option.none
              else Option.some (if eneg then -(ev : Int) else (ev : Int))
            else Option.none
        match eres with
        | Option.none => (.fin 0 0, true)
        | Option.some ex =>
          let m : Nat := iv * 10 ^ fc + fv
          let (num, den) : Int × Nat :=
            if 0 ≤ ex then ((m * 10 ^ ex.toNat : Nat), fc)
            else (m, fc + ex.natAbs)
          let num := if neg then -num else num
          if maxF64 * (10 : Int) ^ den < (num.natAbs : Int) then (.inf neg, true)
          else (.fin num den, false)

/-- Float parse as seen by the validation tags: `Option.none` when
`strconv.ParseFloat` reported any error. -/
def parseGoFloat (s : Str) : Option GoFloat :=
  let (v, e) := parseFloatGo s
  if e then Option.none else Option.some v

/-- Kind of a resolved field value as dispatched by the validation checks
(the `reflect.Kind` switch in checkMin/checkMax/checkPattern). -/
inductive RVal where
  | i (x : Int)
  | u (n : Nat)
  | f (x : GoFloat)
  | s (str : Str)
  | slice (len : Nat)
  | mp (len : Nat)
  | other
  deriving DecidableEq

/-- Whether the value is of string kind. -/
def isStrKind : RVal → Bool
  | .s _ => true
  | _ => false

/-- Message of an invalid min tag attributed to the named flag. -/
def minTagBadMsg (nm : Str) : Str := ("invalid min tag for ").toList ++ nm

/-- Message of an invalid max tag attributed to the named flag. -/
def maxTagBadMsg (nm : Str) : Str := ("invalid max tag for ").toList ++ nm

/-- Message of an invalid pattern tag attributed to the named flag. -/
def patTagBadMsg (nm : Str) : Str := ("invalid pattern tag for ").toList ++ nm

/-- Message of a below-minimum violation. -/
def minViolMsg (nm : Str) : Str := nm ++ (": value less than min").toList

/-- Message of an above-maximum violation. -/
def maxViolMsg (nm : Str) : Str := nm ++ (": value greater than max").toList

/-- Message of a pattern mismatch. -/
def patViolMsg (nm : Str) : Str := nm ++ (": value does not match pattern").toList

/-- Model of `checkMin` (part_003:53-80): an empty tag checks nothing; a tag
that fails to parse as a float is an error attributed to the flag; otherwise
numeric kinds compare their value and string, slice and map kinds compare
their length. -/
def checkMin (v : RVal) (minTag nm : Str) : Option Str :=
  if minTag = [] then Option.none
  else
    match parseGoFloat minTag with
    | Option.none => Option.some (minTagBadMsg nm)
    | Option.some m =>
      match v with
      | .i x => if gfLT (.fin x 0) m then Option.some (minViolMsg nm) else Option.none
      | .u n => if gfLT (.fin n 0) m then Option.some (minViolMsg nm) else Option.none
      | .f x => if gfLT x m then Option.some (minViolMsg nm) else Option.none
      | .s str => if gfLT (.fin str.length 0) m then Option.some (minViolMsg nm) else Option.none
      | .slice len => if gfLT (.fin len 0) m then Option.some (minViolMsg nm) else Option.none
      | .mp len => if gfLT (.fin len 0) m then Option.some (minViolMsg nm) else Option.none
      | .other => Option.none

/-- Model of `checkMax` (part_003:81-108). -/
def checkMax (v : RVal) (maxTag nm : Str) : Option Str :=
  if maxTag = [] then Option.none
  else
    match parseGoFloat maxTag with
    | Option.none => Option.some (maxTagBadMsg nm)
    | Option.some m =>
      match v with
      | .i x => if gfGT (.fin x 0) m then Option.some (maxViolMsg nm) else Option.none
      | .u n => if gfGT (.fin n 0) m then Option.some (maxViolMsg nm) else Option.none
      | .f x => if gfGT x m then Option.some (maxViolMsg nm) else Option.none
      | .s str => if gfGT (.fin str.length 0) m then Option.some (maxViolMsg nm) else Option.none
      | .slice len => if gfGT (.fin len 0) m then Option.some (maxViolMsg nm) else Option.none
      | .mp len => if gfGT (.fin len 0) m then Option.some (maxViolMsg nm) else Option.none
      | .other => Option.none

/-- Model of `checkPattern` (part_003:109-124): an empty tag checks nothing,
non-string kinds are not checked at all, a pattern that fails to compile is
an error attributed to the flag, and a compiled pattern must match.  The
regular-expression engine is abstracted as a compile function returning a
matcher. -/
def checkPattern (compile : Str → Option (Str → Bool)) (v : RVal) (pat nm : Str) :
    Option Str :=
  if pat = [] then Option.none
  else
    match v with
    | .s str =>
      match compile pat with
      | Option.none => Option.some (patTagBadMsg nm)
      | Option.some re =>
        if re str then Option.none else Option.some (patViolMsg nm)
    | _ => Option.none

/-- Model of `MultiError.Append` (validation.go:26-33): nil errors are
skipped, others appended in order. -/
def mAppend (errs : List Str) : Option Str → List Str
  | Option.none => errs
  | Option.some e => errs ++ [e]

/-- Model of the deferred-validation runner loop (part_003:538-546): every
entry result is appended to one collection through `MultiError.Append`. -/
def runAppend : List (Option Str) → List Str
  | [] => []
  | e :: rest =>
    match e with
    | Option.none => runAppend rest
    | Option.some x => x :: runAppend rest

/-- Model of the deferred-validation closure built for one field
(part_003:515-531): run the min, max and pattern checks on the field's final
value, collect failures into a MultiError, and report it only when
non-empty. -/
def deferredCheck (compile : Str → Option (Str → Bool)) (v : RVal)
    (minTag maxTag patTag nm : Str) : Option (List Str) :=
  let m := mAppend (mAppend (mAppend [] (checkMin v minTag nm)) (checkMax v maxTag nm))
    (checkPattern compile v patTag nm)
  if m ≠ [] then Option.some m else Option.none

/-- Model of the required-flag accounting loop (part_003:547-552,
struct.go:335-340): the required names absent from `actual`, in declaration
order. -/
def missingRequired (required actual : List Str) : List Str :=
  match required with
  | [] => []
  | n :: rest =>
    if n ∈ actual then missingRequired rest actual
    else n :: missingRequired rest actual

/-- The missing-required error message (comma-joined names). -/
def missingErrMsg (missing : List Str) : Str :=
  ("missing required flags: ").toList ++ joinStr ((", ").toList) missing

/-- Model of the missing-required check (part_003:553-555,
struct.go:341-343). -/
def requiredErr (required actual : List Str) : Option Str :=
  let missing := missingRequired required actual
  if missing = [] then Option.none else Option.some (missingErrMsg missing)

/-- Final phase of `parseStructInternal` after resolution (part_003:538-556):
run every deferred validation, return the combined MultiError when any
failed, otherwise the missing-required error when any required flag was not
supplied. -/
def structFinalize (vals : List (Option Str)) (required actual : List Str) : Option Str :=
  let all := runAppend vals
  if all ≠ [] then Option.some (joinStr (("; ").toList) all)
  else requiredErr required actual

/-- Model of `boolValue.Set` (part_005:113-117): the stored value is the
result of `strconv.ParseBool`, regardless of the previous contents or of the
error. -/
def boolValueSet (_old : Bool) (s : Str) : Bool × Bool := parseBoolGo s

/-- Model of `intValue.Set` (part_005:140-144). -/
def intValueSet (_old : Int) (s : Str) : Int × Option GoNumErr := parseInt64Go s

/-- Model of `int64Value.Set` (part_005:158-162). -/
def int64ValueSet (_old : Int) (s : Str) : Int × Option GoNumErr := parseInt64Go s

/-- Model of `uintValue.Set` (part_005:176-180). -/
def uintValueSet (_old : Nat) (s : Str) : Nat × Option GoNumErr := parseUint64Go s

/-- Model of `uint64Value.Set` (part_005:194-198). -/
def uint64ValueSet (_old : Nat) (s : Str) : Nat × Option GoNumErr := parseUint64Go s

/-- Model of `float64Value.Set` (part_005:229-233). -/
def float64ValueSet (_old : GoFloat) (s : Str) : GoFloat × Bool := parseFloatGo s

/-! Helper lemmas shared by the claim theorems. -/

theorem strStarts_append (p t : Str) : strStarts (p ++ t) p = true := by
  induction p with
  | nil => simp [strStarts]
  | cons c cs ih => simpa [strStarts] using ih

theorem lookupF_updF_ne (m : List (Str × FValue)) (k k' : Str) (v : FValue)
    (h : k' ≠ k) : lookupF (updF m k v) k' = lookupF m k' := by
  induction m with
  | nil => rfl
  | cons a rest ih =>
    obtain ⟨ak, av⟩ := a
    by_cases hk : ak = k
    · subst hk
      simp [updF, lookupF, Ne.symm h]
    · simp [updF, lookupF, hk, ih]

theorem recordActual_formal (st : St) (nm : Str) :
    (recordActual st nm).formal = st.formal := by
  unfold recordActual
  split <;> rfl

theorem mem_recordActual (st : St) (nm name : Str) (h : name ∈ st.actual) :
    name ∈ (recordActual st nm).actual := by
  unfold recordActual
  split
  · exact h
  · exact List.mem_append_left _ h

theorem setFlagVal_actual (st : St) (nm : Str) (fv : FValue) (s : Str) :
    (setFlagVal st nm fv s).1.actual = st.actual := rfl

theorem setFlagVal_formal_ne (st : St) (nm name : Str) (fv : FValue) (s : Str)
    (h : name ≠ nm) :
    lookupF (setFlagVal st nm fv s).1.formal name = lookupF st.formal name :=
  lookupF_updF_ne _ _ _ _ h

theorem applySet_keeps (st : St) (nm name : Str) (fv : FValue) (s msg : Str)
    (h1 : name ∈ st.actual) (hne : name ≠ nm) :
    name ∈ (applySet st nm fv s msg).1.actual ∧
    lookupF (applySet st nm fv s msg).1.formal name = lookupF st.formal name := by
  unfold applySet
  split
  · exact ⟨h1, setFlagVal_formal_ne st nm name fv s hne⟩
  · refine ⟨mem_recordActual _ _ _ h1, ?_⟩
    rw [recordActual_formal]
    exact setFlagVal_formal_ne st nm name fv s hne

theorem applySetIgnoreErr_keeps (st : St) (nm name : Str) (fv : FValue) (s : Str)
    (h1 : name ∈ st.actual) (hne : name ≠ nm) :
    name ∈ (applySetIgnoreErr st nm fv s).1.actual ∧
    lookupF (applySetIgnoreErr st nm fv s).1.formal name = lookupF st.formal name := by
  unfold applySetIgnoreErr
  refine ⟨mem_recordActual _ _ _ h1, ?_⟩
  rw [recordActual_formal]
  exact setFlagVal_formal_ne st nm name fv s hne

theorem envStep_keeps (em : List (Str × Str)) (fsys : Str → Option Str) (st : St)
    (nm name : Str) (h1 : name ∈ st.actual) :
    name ∈ (envStep em fsys st nm).1.actual ∧
    lookupF (envStep em fsys st nm).1.formal name = lookupF st.formal name := by
  by_cases hnm : nm ∈ st.actual
  · simp [envStep, hnm, h1]
  · have hne : name ≠ nm := fun he => hnm (he ▸ h1)
    unfold envStep
    rw [if_neg hnm]
    cases hf : lookupF st.formal nm with
    | none =>
      by_cases hh : nm = helpS ∨ nm = hS
      · rw [if_pos hh]; exact ⟨h1, rfl⟩
      · rw [if_neg hh]; exact ⟨h1, rfl⟩
    | some fv =>
      dsimp only
      cases he : envLookup em (envKeyOf st.envPre nm) with
      | none => exact ⟨h1, rfl⟩
      | some value =>
        dsimp only
        by_cases hb : isBoolF fv ∧ value = []
        · rw [if_pos hb]
          exact applySetIgnoreErr_keeps _ _ _ _ _ h1 hne
        · rw [if_neg hb]
          cases expandAtFile fsys value with
          | err m => exact ⟨h1, rfl⟩
          | ok v => exact applySet_keeps _ _ _ _ _ _ h1 hne
          | noExp => exact applySet_keeps _ _ _ _ _ _ h1 hne

theorem fileLineStep_keeps (fsys : Str → Option Str) (st : St) (line name : Str)
    (h1 : name ∈ st.actual) :
    name ∈ (fileLineStep fsys st line).1.actual ∧
    lookupF (fileLineStep fsys st line).1.formal name = lookupF st.formal name := by
  unfold fileLineStep
  by_cases h0 : line = []
  · rw [if_pos h0]; exact ⟨h1, rfl⟩
  · rw [if_neg h0]
    by_cases hcm : strStarts line (['#']) = true
    · rw [if_pos hcm]; exact ⟨h1, rfl⟩
    · rw [if_neg hcm]
      by_cases hnm : (splitKV line).1 ∈ st.actual
      · rw [if_pos hnm]; exact ⟨h1, rfl⟩
      · have hne : name ≠ (splitKV line).1 := fun he => hnm (he ▸ h1)
        rw [if_neg hnm]
        cases hf : lookupF st.formal (splitKV line).1 with
        | none =>
          by_cases hh : (splitKV line).1 = helpS ∨ (splitKV line).1 = hS
          · rw [if_pos hh]; exact ⟨h1, rfl⟩
          · rw [if_neg hh]; exact ⟨h1, rfl⟩
        | some fv =>
          dsimp only
          by_cases hb : isBoolF fv ∧ ¬ (splitKV line).2.2
          · rw [if_pos hb]
            exact applySetIgnoreErr_keeps _ _ _ _ _ h1 hne
          · rw [if_neg hb]
            cases expandAtFile fsys (splitKV line).2.1 with
            | err m => exact ⟨h1, rfl⟩
            | ok v => exact applySet_keeps _ _ _ _ _ _ h1 hne
            | noExp => exact applySet_keeps _ _ _ _ _ _ h1 hne

theorem secretStep_keeps (fsys : Str → Option Str) (st : St) (e : SecretEnt)
    (name : Str) (h1 : name ∈ st.actual) :
    name ∈ (secretStep fsys st e).1.actual ∧
    lookupF (secretStep fsys st e).1.formal name = lookupF st.formal name := by
  unfold secretStep
  by_cases hd0 : e.isDir = true
  · rw [if_pos hd0]; exact ⟨h1, rfl⟩
  · rw [if_neg hd0]
    cases hc : firstCand st.formal
        [lowerStr e.name, replaceCh '_' '-' (lowerStr e.name)] with
    | none => exact ⟨h1, rfl⟩
    | some tfv =>
      obtain ⟨target, fv⟩ := tfv
      dsimp only
      by_cases ht : target ∈ st.actual
      · rw [if_pos ht]; exact ⟨h1, rfl⟩
      · have hne : name ≠ target := fun he => ht (he ▸ h1)
        rw [if_neg ht]
        cases hdc : e.content with
        | none => exact ⟨h1, rfl⟩
        | some data =>
          dsimp only
          by_cases hb : isBoolF fv ∧ (trimRightCRLF data = [] ∨
              strEqFold (trimRightCRLF data) (("true").toList))
          · rw [if_pos hb]
            exact applySet_keeps _ _ _ _ _ _ h1 hne
          · rw [if_neg hb]
            cases expandAtFile fsys (trimRightCRLF data) with
            | ok v => exact applySet_keeps _ _ _ _ _ _ h1 hne
            | err m => exact applySet_keeps _ _ _ _ _ _ h1 hne
            | noExp => exact applySet_keeps _ _ _ _ _ _ h1 hne

theorem passFold_keeps {α : Type} (step : St → α → St × Option PErr) (name : Str)
    (hstep : ∀ st x, name ∈ st.actual →
      name ∈ (step st x).1.actual ∧
      lookupF (step st x).1.formal name = lookupF st.formal name) :
    ∀ (xs : List α) (st : St), name ∈ st.actual →
      name ∈ (passFold step st xs).1.actual ∧
      lookupF (passFold step st xs).1.formal name = lookupF st.formal name := by
  intro xs
  induction xs with
  | nil => exact fun st h => ⟨h, rfl⟩
  | cons x rest ih =>
    intro st h
    obtain ⟨hm, hl⟩ := hstep st x h
    rcases hs : step st x with ⟨st1, e⟩
    rw [hs] at hm hl
    cases e with
    | none =>
      obtain ⟨hm2, hl2⟩ := ih st1 hm
      exact ⟨by simpa [passFold, hs] using hm2, by simpa [passFold, hs] using hl2.trans hl⟩
    | some er =>
      exact ⟨by simpa [passFold, hs] using hm, by simpa [passFold, hs] using hl⟩

/-! Claim theorems. -/

/-- C2 (amended): the environment, secret-directory and config-file passes
write a flag only when its name is absent from `actual` and leave every
recorded flag's value unchanged, so for those sources the resolved value is
the one from the highest-precedence source that supplied it; the CLI pass,
by contrast, writes at every occurrence of a flag token even when the flag
is already recorded (last CLI occurrence wins). -/
theorem later_passes_skip_recorded_flags
    (name : Str) (st : St) (h : name ∈ st.actual)
    (em : List Str) (fsys : Str → Option Str)
    (fileFs : Str → Option (List Str)) (path : Str) (entries : List SecretEnt) :
    (lookupF (parseEnvGo em fsys st).1.formal name = lookupF st.formal name ∧
      name ∈ (parseEnvGo em fsys st).1.actual) ∧
    (lookupF (parseFileGo fileFs path fsys st).1.formal name = lookupF st.formal name ∧
      name ∈ (parseFileGo fileFs path fsys st).1.actual) ∧
    (lookupF (parseSecretDirGo fsys entries st).1.formal name = lookupF st.formal name ∧
      name ∈ (parseSecretDirGo fsys entries st).1.actual) := by
  refine ⟨?_, ?_, ?_⟩
  · have hk := passFold_keeps (envStep (buildEnvMap em) fsys) name
      (fun st2 x hx => envStep_keeps _ _ _ _ _ hx) (st.formal.map (fun p => p.1)) st h
    exact ⟨hk.2, hk.1⟩
  · unfold parseFileGo
    cases fileFs path with
    | none => exact ⟨rfl, h⟩
    | some lines =>
      have hk := passFold_keeps (fileLineStep fsys) name
        (fun st2 x hx => fileLineStep_keeps _ _ _ _ hx) lines st h
      exact ⟨hk.2, hk.1⟩
  · have hk := passFold_keeps (secretStep fsys) name
      (fun st2 x hx => secretStep_keeps _ _ _ _ hx) entries st h
    exact ⟨hk.2, hk.1⟩

/-- C2 (counterexample to the claim as stated): within one CLI scan, after
`-x=1` is processed the name `x` is recorded in `actual`, yet the pass
still writes `x` when it reaches the second token `-x=2` — so it is not
true that every pass writes a flag only when its name is absent from
`actual` at the moment the pass reaches it. -/
theorem cli_pass_overwrites_recorded_flag :
    parseOne ⟨[(("x").toList, .int 0)], [], [("-x=1").toList, ("-x=2").toList], []⟩ =
      (true, Option.none,
        ⟨[(("x").toList, .int 1)], [("x").toList], [("-x=2").toList], []⟩) ∧
    parseOne ⟨[(("x").toList, .int 1)], [("x").toList], [("-x=2").toList], []⟩ =
      (true, Option.none, ⟨[(("x").toList, .int 2)], [("x").toList], [], []⟩) := by
  constructor
  · decide
  · decide

/-- Witness for C2: a concrete state with a recorded flag is left unchanged
by the environment, config-file and secret-directory passes. -/
theorem later_passes_skip_recorded_flags_witness :
    (lookupF (parseEnvGo [("X=env").toList] (fun _ => Option.none)
        ⟨[(("x").toList, .str (("cli").toList))], [("x").toList], [], []⟩).1.formal
        (("x").toList) =
      lookupF [(("x").toList, FValue.str (("cli").toList))] (("x").toList) ∧
      ("x").toList ∈ (parseEnvGo [("X=env").toList] (fun _ => Option.none)
        ⟨[(("x").toList, .str (("cli").toList))], [("x").toList], [], []⟩).1.actual) ∧
    (lookupF (parseFileGo (fun _ => Option.some [("x file").toList]) (("c").toList)
        (fun _ => Option.none)
        ⟨[(("x").toList, .str (("cli").toList))], [("x").toList], [], []⟩).1.formal
        (("x").toList) =
      lookupF [(("x").toList, FValue.str (("cli").toList))] (("x").toList) ∧
      ("x").toList ∈ (parseFileGo (fun _ => Option.some [("x file").toList]) (("c").toList)
        (fun _ => Option.none)
        ⟨[(("x").toList, .str (("cli").toList))], [("x").toList], [], []⟩).1.actual) ∧
    (lookupF (parseSecretDirGo (fun _ => Option.none)
        [⟨("x").toList, false, Option.some (("sec").toList)⟩]
        ⟨[(("x").toList, .str (("cli").toList))], [("x").toList], [], []⟩).1.formal
        (("x").toList) =
      lookupF [(("x").toList, FValue.str (("cli").toList))] (("x").toList) ∧
      ("x").toList ∈ (parseSecretDirGo (fun _ => Option.none)
        [⟨("x").toList, false, Option.some (("sec").toList)⟩]
        ⟨[(("x").toList, .str (("cli").toList))], [("x").toList], [], []⟩).1.actual) :=
  later_passes_skip_recorded_flags (("x").toList)
    ⟨[(("x").toList, .str (("cli").toList))], [("x").toList], [], []⟩
    (by decide) [("X=env").toList] (fun _ => Option.none)
    (fun _ => Option.some [("x file").toList]) (("c").toList)
    [⟨("x").toList, false, Option.some (("sec").toList)⟩]

/-- C1: one call to `Parse` on a registry holding `username` and the
controlling `secret-dir` flag, with the CLI resolving `secret-dir` to the
non-empty path `/s`, returns without error yet leaves `username` at its
default — the body of `Parse` contains no secret-directory pass.  The
embedded `ParseSecretDir`, applied to the very state `Parse` produced,
would have filled `username` from the secret file (as the repository's own
test `TestParse_SecretDirIntegrationPrecedence` demands of `Parse`). -/
theorem parse_never_runs_secret_pass :
    parseGo [] (fun _ => Option.none) (fun _ => Option.none)
        ⟨[(("username").toList, .str []), (secretDirNameS, .str [])], [],
          [("-secret-dir").toList, ("/s").toList], []⟩ =
      (⟨[(("username").toList, .str []), (secretDirNameS, .str (("/s").toList))],
        [secretDirNameS], [], []⟩, Option.none) ∧
    (parseSecretDirGo (fun _ => Option.none)
        [⟨("username").toList, false, Option.some (("secretUser\n").toList)⟩]
        ⟨[(("username").toList, .str []), (secretDirNameS, .str (("/s").toList))],
          [secretDirNameS], [], []⟩).1.formal =
      [(("username").toList, .str (("secretUser").toList)),
        (secretDirNameS, .str (("/s").toList))] := by
  constructor
  · decide
  · decide

/-- C3: both trimming sites remove every trailing CR/LF, not exactly one
line terminator: at-file expansion of a file containing two trailing
newlines yields the bare content, and a secret file whose content is
`s3cr3t` followed by two newlines resolves to `s3cr3t` — where the claim
(and the Go functions' own doc comments) require the earlier newline to be
preserved. -/
theorem trailing_newlines_all_stripped :
    expandAtFile (fun p => if p = ("p").toList then Option.some (("a\n\n").toList)
        else Option.none) (("@p").toList) = .ok (("a").toList) ∧
    (parseSecretDirGo (fun _ => Option.none)
        [⟨("db-password").toList, false, Option.some (("s3cr3t\n\n").toList)⟩]
        ⟨[(("db-password").toList, .str [])], [], [], []⟩).1.formal =
      [(("db-password").toList, .str (("s3cr3t").toList))] ∧
    ("a").toList ≠ ("a\n").toList ∧ ("s3cr3t").toList ≠ ("s3cr3t\n").toList := by
  refine ⟨by decide, by decide, by decide, by decide⟩

/-- C5: the CLI pass applies no at-file indirection at all — `Parse` stores
the raw token `@@x` where expansion would produce `@x` — and the
secret-directory pass swallows expansion failures: a secret file whose
content names an unreadable file resolves to the raw content without error,
although `expandAtFile` reports a read error for it. -/
theorem cli_and_secret_expansion_eval :
    parseGo [] (fun _ => Option.none) (fun _ => Option.none)
        ⟨[(("password").toList, .str [])], [],
          [("-password").toList, ("@@x").toList], []⟩ =
      (⟨[(("password").toList, .str (("@@x").toList))], [("password").toList], [], []⟩,
        Option.none) ∧
    expandAtFile (fun _ => Option.none) (("@@x").toList) = .ok (("@x").toList) ∧
    parseSecretDirGo (fun _ => Option.none)
        [⟨("tok").toList, false, Option.some (("@missing").toList)⟩]
        ⟨[(("tok").toList, .str [])], [], [], []⟩ =
      (⟨[(("tok").toList, .str (("@missing").toList))], [("tok").toList], [], []⟩,
        Option.none) ∧
    expandAtFile (fun _ => Option.none) (("@missing").toList) = .err readErrMsg := by
  refine ⟨by decide, by decide, by decide, by decide⟩

/-- C4: expanding a double-at value always succeeds and strips exactly one
leading at sign (in particular the bare double at expands to a single at);
a value that does not start with an at sign signals that no expansion
occurred, through the distinguished sentinel rather than a failure; and the
bare at sign (empty path) is an error. -/
theorem expand_at_escape_spec :
    (∀ (fsys : Str → Option Str) (X : Str),
      expandAtFile fsys ('@' :: '@' :: X) = .ok ('@' :: X)) ∧
    (∀ fsys : Str → Option Str,
      expandAtFile fsys (("@@").toList) = .ok (("@").toList)) ∧
    (∀ (fsys : Str → Option Str) (s : Str),
      strStarts s (['@']) = false → expandAtFile fsys s = .noExp) ∧
    (∀ fsys : Str → Option Str, expandAtFile fsys (('@' : Char) :: []) = .err emptyPathMsg) := by
  have h1 : ∀ (fsys : Str → Option Str) (X : Str),
      expandAtFile fsys ('@' :: '@' :: X) = .ok ('@' :: X) := by
    intro fsys X
    simp [expandAtFile, strStarts]
  refine ⟨h1, ?_, ?_, ?_⟩
  · intro fsys
    have ht : ("@@").toList = '@' :: '@' :: ([] : Str) := by decide
    rw [ht, h1]
    decide
  · intro fsys s hs
    cases s with
    | nil => rfl
    | cons c cs =>
      have hc : (c = '@') = False := by
        simpa [strStarts] using hs
      simp [expandAtFile, hc]
  · intro fsys
    simp [expandAtFile, strStarts, emptyPathMsg]

/-- Witness for C4: concrete applications of each clause. -/
theorem expand_at_escape_spec_witness :
    expandAtFile (fun _ => Option.none) ('@' :: '@' :: ("abc").toList) =
      .ok ('@' :: ("abc").toList) ∧
    expandAtFile (fun _ => Option.none) (("plain").toList) = .noExp :=
  ⟨expand_at_escape_spec.1 (fun _ => Option.none) (("abc").toList),
    expand_at_escape_spec.2.2.1 (fun _ => Option.none) (("plain").toList) (by decide)⟩

/-- C9: a CLI token whose flag name begins with `test.` (one or two
dashes) is silently skipped by `parseOne`: no lookup against the declared
flags, no error, no record into `actual`, the state is returned untouched,
and the CLI scanning loop stops at that token. -/
theorem cli_test_tokens_skipped (st : St) (tl : Str) (restArgs : List Str) (n : Nat)
    (h : st.args = ('-' :: (testDotS ++ tl)) :: restArgs ∨
         st.args = ('-' :: '-' :: (testDotS ++ tl)) :: restArgs) :
    parseOne st = (false, Option.none, st) ∧ cliLoop (n + 1) st = (st, Option.none) := by
  have htd : testDotS = 't' :: 'e' :: 's' :: 't' :: '.' :: [] := by decide
  have hpre : strStarts (testDotS ++ tl) testDotS = true := strStarts_append _ _
  rw [htd] at h hpre
  simp only [List.cons_append, List.nil_append] at h hpre
  have hone : parseOne st = (false, Option.none, st) := by
    rcases h with h | h <;>
      · unfold parseOne
        rw [h]
        simp [htd, hpre]
  refine ⟨hone, ?_⟩
  show cliLoop (n + 1) st = (st, Option.none)
  unfold cliLoop
  rw [hone]

/-- Witness for C9: the concrete token `-test.v` is skipped and stops the
scan. -/
theorem cli_test_tokens_skipped_witness :
    parseOne ⟨[], [], [("-test.v").toList], []⟩ =
      (false, Option.none, ⟨[], [], [("-test.v").toList], []⟩) ∧
    cliLoop 1 ⟨[], [], [("-test.v").toList], []⟩ =
      (⟨[], [], [("-test.v").toList], []⟩, Option.none) :=
  cli_test_tokens_skipped ⟨[], [], [("-test.v").toList], []⟩ (("v").toList) [] 0
    (Or.inl (by decide))

/-- C6: when the environment pass or the config-file pass reaches a name
that is not a declared flag (and not already recorded), it stops with an
error, except for the literal names `help` and `h`, which yield the
distinguished help-requested signal instead. -/
theorem unknown_name_env_config_spec :
    (∀ (em : List (Str × Str)) (fsys : Str → Option Str) (st : St) (nm : Str),
      ¬ nm ∈ st.actual → lookupF st.formal nm = Option.none →
      envStep em fsys st nm =
        (st, Option.some (if nm = helpS ∨ nm = hS then PErr.help
          else PErr.fail envNotDefMsg))) ∧
    (∀ (fsys : Str → Option Str) (st : St) (line : Str),
      line ≠ [] → strStarts line (['#']) = false →
      ¬ (splitKV line).1 ∈ st.actual →
      lookupF st.formal (splitKV line).1 = Option.none →
      fileLineStep fsys st line =
        (st, Option.some (if (splitKV line).1 = helpS ∨ (splitKV line).1 = hS
          then PErr.help else PErr.fail cfgNotDefMsg))) := by
  constructor
  · intro em fsys st nm h1 h2
    unfold envStep
    rw [if_neg h1, h2]
    by_cases hh : nm = helpS ∨ nm = hS
    · rw [if_pos hh, if_pos hh]
    · rw [if_neg hh, if_neg hh]
  · intro fsys st line h0 hcm h1 h2
    unfold fileLineStep
    rw [if_neg h0, if_neg (by simp [hcm]), if_neg h1, h2]
    by_cases hh : (splitKV line).1 = helpS ∨ (splitKV line).1 = hS
    · rw [if_pos hh, if_pos hh]
    · rw [if_neg hh, if_neg hh]

/-- Witness for C6: a concrete unknown name errors in both passes, and the
literal `help` and `h` yield the help signal. -/
theorem unknown_name_env_config_spec_witness :
    envStep [] (fun _ => Option.none) ⟨[], [], [], []⟩ (("nope").toList) =
      (⟨[], [], [], []⟩, Option.some (.fail envNotDefMsg)) ∧
    envStep [] (fun _ => Option.none) ⟨[], [], [], []⟩ (("h").toList) =
      (⟨[], [], [], []⟩, Option.some .help) ∧
    fileLineStep (fun _ => Option.none) ⟨[], [], [], []⟩ (("nope=1").toList) =
      (⟨[], [], [], []⟩, Option.some (.fail cfgNotDefMsg)) ∧
    fileLineStep (fun _ => Option.none) ⟨[], [], [], []⟩ (("help").toList) =
      (⟨[], [], [], []⟩, Option.some .help) := by
  refine ⟨?_, ?_, ?_, ?_⟩
  · rw [unknown_name_env_config_spec.1 [] (fun _ => Option.none) ⟨[], [], [], []⟩
      (("nope").toList) (by decide) (by decide)]
    decide
  · rw [unknown_name_env_config_spec.1 [] (fun _ => Option.none) ⟨[], [], [], []⟩
      (("h").toList) (by decide) (by decide)]
    decide
  · rw [unknown_name_env_config_spec.2 (fun _ => Option.none) ⟨[], [], [], []⟩
      (("nope=1").toList) (by decide) (by decide) (by decide) (by decide)]
    decide
  · rw [unknown_name_env_config_spec.2 (fun _ => Option.none) ⟨[], [], [], []⟩
      (("help").toList) (by decide) (by decide) (by decide) (by decide)]
    decide

theorem runAppend_of_all_none (vals : List (Option Str))
    (h : ∀ e ∈ vals, e = Option.none) : runAppend vals = [] := by
  induction vals with
  | nil => rfl
  | cons e rest ih =>
    have he : e = Option.none := h e (List.mem_cons_self e rest)
    subst he
    exact ih (fun x hx => h x (List.mem_cons_of_mem _ hx))

/-- C7: the required-flag accounting lists exactly the required names absent
from `actual`, in field-declaration order; with N required fields of which
M are supplied, the missing list has length N minus M; and when every
deferred validation succeeded, the final phase of struct registration
returns the comma-joined missing-required error exactly when the missing
list is non-empty. -/
theorem missing_required_accounting :
    (∀ required actual : List Str,
      missingRequired required actual =
        required.filter (fun n => ! decide (n ∈ actual))) ∧
    (∀ required actual : List Str,
      (missingRequired required actual).length
        + (required.filter (fun n => decide (n ∈ actual))).length = required.length) ∧
    (∀ (vals : List (Option Str)) (required actual : List Str),
      (∀ e ∈ vals, e = Option.none) →
      structFinalize vals required actual =
        (if missingRequired required actual = [] then Option.none
         else Option.some (missingErrMsg (missingRequired required actual)))) := by
  have h1 : ∀ required actual : List Str,
      missingRequired required actual =
        required.filter (fun n => ! decide (n ∈ actual)) := by
    intro required actual
    induction required with
    | nil => rfl
    | cons n rest ih =>
      by_cases hn : n ∈ actual
      · simp [missingRequired, hn, List.filter, ih]
      · simp [missingRequired, hn, List.filter, ih]
  refine ⟨h1, ?_, ?_⟩
  · intro required actual
    induction required with
    | nil => rfl
    | cons n rest ih =>
      by_cases hn : n ∈ actual
      · simp [missingRequired, hn, List.filter_cons]
        omega
      · simp [missingRequired, hn, List.filter_cons]
        omega
  · intro vals required actual h
    unfold structFinalize
    rw [runAppend_of_all_none vals h]
    simp [requiredErr]

/-- Witness for C7: two required flags with one supplied produce the
comma-joined error naming the other two in declaration order. -/
theorem missing_required_accounting_witness :
    structFinalize [] [("a").toList, ("b").toList, ("c").toList] [("b").toList] =
      Option.some (("missing required flags: a, c").toList) := by
  rw [missing_required_accounting.2.2 [] [("a").toList, ("b").toList, ("c").toList]
    [("b").toList] (by decide)]
  decide

/-- C8 (counterexample to the claim as stated): the deferred validation
enqueued for an integer-kind field carrying the uncompilable pattern tag
`[` reports no failure at all — the pattern check returns before compiling
whenever the value is not of string kind, so this unparsable tag is
silently skipped rather than attributed to the flag. -/
theorem invalid_pattern_tag_skipped_on_int :
    deferredCheck (fun _ => Option.none) (RVal.i 0) [] [] (("[").toList)
      (("port").toList) = Option.none ∧
    checkPattern (fun _ => Option.none) (RVal.i 0) (("[").toList)
      (("port").toList) = Option.none := by
  constructor
  · decide
  · decide

/-- C8 (amended): every enqueued deferred validation runs even when earlier
entries fail and all failures are collected in order into one MultiError;
a min or max tag that fails to parse as a float is reported as a validation
failure attributed to the flag, whatever the value's kind; a pattern tag
that fails to compile is reported for string-kind values; but on
non-string kinds the pattern check — including an unparsable pattern tag —
is silently skipped. -/
theorem deferred_validation_collection :
    (∀ vals : List (Option Str), runAppend vals = vals.filterMap id) ∧
    (∀ (v : RVal) (minTag nm : Str), minTag ≠ [] →
      parseGoFloat minTag = Option.none →
      checkMin v minTag nm = Option.some (minTagBadMsg nm)) ∧
    (∀ (v : RVal) (maxTag nm : Str), maxTag ≠ [] →
      parseGoFloat maxTag = Option.none →
      checkMax v maxTag nm = Option.some (maxTagBadMsg nm)) ∧
    (∀ (compile : Str → Option (Str → Bool)) (str pat nm : Str), pat ≠ [] →
      compile pat = Option.none →
      checkPattern compile (RVal.s str) pat nm = Option.some (patTagBadMsg nm)) ∧
    (∀ (compile : Str → Option (Str → Bool)) (v : RVal) (pat nm : Str),
      isStrKind v = false → checkPattern compile v pat nm = Option.none) := by
  refine ⟨?_, ?_, ?_, ?_, ?_⟩
  · intro vals
    induction vals with
    | nil => rfl
    | cons e rest ih =>
      cases e with
      | none => simpa [runAppend] using ih
      | some x => simpa [runAppend] using ih
  · intro v minTag nm h1 h2
    unfold checkMin
    rw [if_neg h1, h2]
  · intro v maxTag nm h1 h2
    unfold checkMax
    rw [if_neg h1, h2]
  · intro compile str pat nm h1 h2
    unfold checkPattern
    rw [if_neg h1]
    dsimp only
    rw [h2]
  · intro compile v pat nm hv
    unfold checkPattern
    by_cases h1 : pat = []
    · rw [if_pos h1]
    · rw [if_neg h1]
      cases v with
      | s str => simp [isStrKind] at hv
      | i x => rfl
      | u n => rfl
      | f x => rfl
      | slice len => rfl
      | mp len => rfl
      | other => rfl

/-- Witness for C8: the runner collects the failures of every entry past an
earlier failure; unparsable min and max tags are reported and attributed;
an uncompilable pattern on a string value is reported; the same pattern on
a non-string value is skipped. -/
theorem deferred_validation_collection_witness :
    runAppend [Option.some (("e1").toList), Option.none, Option.some (("e2").toList)] =
      [("e1").toList, ("e2").toList] ∧
    checkMin (RVal.i 5) (("abc").toList) (("port").toList) =
      Option.some (minTagBadMsg (("port").toList)) ∧
    checkMax (RVal.i 5) (("xyz").toList) (("port").toList) =
      Option.some (maxTagBadMsg (("port").toList)) ∧
    checkPattern (fun _ => Option.none) (RVal.s (("v").toList)) (("[").toList)
      (("name").toList) = Option.some (patTagBadMsg (("name").toList)) ∧
    checkPattern (fun _ => Option.none) (RVal.u 3) (("[").toList)
      (("name").toList) = Option.none := by
  refine ⟨?_, ?_, ?_, ?_, ?_⟩
  · rw [deferred_validation_collection.1]
    decide
  · exact deferred_validation_collection.2.1 (RVal.i 5) (("abc").toList)
      (("port").toList) (by decide) (by decide)
  · exact deferred_validation_collection.2.2.1 (RVal.i 5) (("xyz").toList)
      (("port").toList) (by decide) (by decide)
  · exact deferred_validation_collection.2.2.2.1 (fun _ => Option.none)
      (("v").toList) (("[").toList) (("name").toList) (by decide) rfl
  · exact deferred_validation_collection.2.2.2.2 (fun _ => Option.none)
      (RVal.u 3) (("[").toList) (("name").toList) (by decide)

/-- C10 (counterexample to the claim as stated): `intValue.Set` on the
out-of-range string for two to the sixty-third stores the clamped maximum
64-bit integer — not the zero value — while returning a range error; the
previous value 7 is still lost. -/
theorem int_set_range_error_not_zero :
    intValueSet 7 (("9223372036854775808").toList) =
      (9223372036854775807, Option.some GoNumErr.errRange) ∧
    (9223372036854775807 : Int) ≠ 0 ∧ (9223372036854775807 : Int) ≠ 7 := by
  refine ⟨by decide, by decide, by decide⟩

theorem scanU_syn_val (base : Nat) :
    ∀ (s : Str) (n : Nat) (usc : Bool),
      (scanU base s n usc).2.1 = Option.some GoNumErr.errSyn →
      (scanU base s n usc).1 = 0 := by
  intro s
  induction s with
  | nil => intro n usc h; simp [scanU] at h
  | cons c cs ih =>
    intro n usc h
    unfold scanU at h ⊢
    by_cases hc : c = '_'
    · rw [if_pos hc] at h ⊢
      exact ih _ _ h
    · rw [if_neg hc] at h ⊢
      cases hd : digitVal c with
      | none => rfl
      | some d =>
        rw [hd] at h
        dsimp only at h ⊢
        by_cases h1 : base ≤ d
        · rw [if_pos h1]
        · rw [if_neg h1] at h ⊢
          by_cases h2 : maxU64 < n * base + d
          · rw [if_pos h2] at h
            simp at h
          · rw [if_neg h2] at h ⊢
            exact ih _ _ h

theorem scanU_range_val (base : Nat) :
    ∀ (s : Str) (n : Nat) (usc : Bool),
      (scanU base s n usc).2.1 = Option.some GoNumErr.errRange →
      (scanU base s n usc).1 = maxU64 := by
  intro s
  induction s with
  | nil => intro n usc h; simp [scanU] at h
  | cons c cs ih =>
    intro n usc h
    unfold scanU at h ⊢
    by_cases hc : c = '_'
    · rw [if_pos hc] at h ⊢
      exact ih _ _ h
    · rw [if_neg hc] at h ⊢
      cases hd : digitVal c with
      | none => rw [hd] at h; simp at h
      | some d =>
        rw [hd] at h
        dsimp only at h ⊢
        by_cases h1 : base ≤ d
        · rw [if_pos h1] at h; simp at h
        · rw [if_neg h1] at h ⊢
          by_cases h2 : maxU64 < n * base + d
          · rw [if_pos h2]
          · rw [if_neg h2] at h ⊢
            exact ih _ _ h

theorem parseUint64Go_syn_val (s : Str)
    (h : (parseUint64Go s).2 = Option.some GoNumErr.errSyn) :
    (parseUint64Go s).1 = 0 := by
  unfold parseUint64Go at h ⊢
  by_cases h0 : s = []
  · rw [if_pos h0]
  · rw [if_neg h0] at h ⊢
    cases hsc : (scanU (detectBase s).1 (detectBase s).2 0 false).2.1 with
    | some er =>
      rw [hsc] at h
      cases er with
      | errSyn =>
        exact scanU_syn_val (detectBase s).1 (detectBase s).2 0 false hsc
      | errRange => simp at h
    | none =>
      rw [hsc] at h
      dsimp only at h ⊢
      by_cases hu : (scanU (detectBase s).1 (detectBase s).2 0 false).2.2
          ∧ ¬ underscoreOKGo s
      · rw [if_pos hu]
      · rw [if_neg hu] at h
        simp at h

theorem parseUint64Go_range_val (s : Str)
    (h : (parseUint64Go s).2 = Option.some GoNumErr.errRange) :
    (parseUint64Go s).1 = maxU64 := by
  unfold parseUint64Go at h ⊢
  by_cases h0 : s = []
  · rw [if_pos h0] at h; simp at h
  · rw [if_neg h0] at h ⊢
    cases hsc : (scanU (detectBase s).1 (detectBase s).2 0 false).2.1 with
    | some er =>
      rw [hsc] at h
      cases er with
      | errRange =>
        exact scanU_range_val (detectBase s).1 (detectBase s).2 0 false hsc
      | errSyn => simp at h
    | none =>
      rw [hsc] at h
      dsimp only at h ⊢
      by_cases hu : (scanU (detectBase s).1 (detectBase s).2 0 false).2.2
          ∧ ¬ underscoreOKGo s
      · rw [if_pos hu] at h; simp at h
      · rw [if_neg hu] at h; simp at h

theorem parseInt64Go_syn_val (s : Str)
    (h : (parseInt64Go s).2 = Option.some GoNumErr.errSyn) :
    (parseInt64Go s).1 = 0 := by
  cases s with
  | nil => rfl
  | cons c rest =>
    unfold parseInt64Go at h ⊢
    dsimp only at h ⊢
    by_cases hsy : (parseUint64Go (intBody c rest)).2 = Option.some GoNumErr.errSyn
    · rw [if_pos hsy]
    · rw [if_neg hsy] at h ⊢
      by_cases h1 : ¬ (c = '-') ∧ 2 ^ 63 ≤ (parseUint64Go (intBody c rest)).1
      · rw [if_pos h1] at h; simp at h
      · rw [if_neg h1] at h ⊢
        by_cases h2 : (c = '-') ∧ 2 ^ 63 < (parseUint64Go (intBody c rest)).1
        · rw [if_pos h2] at h; simp at h
        · rw [if_neg h2] at h
          exact absurd h hsy

theorem parseInt64Go_range_val (s : Str)
    (h : (parseInt64Go s).2 = Option.some GoNumErr.errRange) :
    (parseInt64Go s).1 = i64max ∨ (parseInt64Go s).1 = i64min := by
  cases s with
  | nil => simp [parseInt64Go] at h
  | cons c rest =>
    unfold parseInt64Go at h ⊢
    dsimp only at h ⊢
    by_cases hsy : (parseUint64Go (intBody c rest)).2 = Option.some GoNumErr.errSyn
    · rw [if_pos hsy] at h; simp at h
    · rw [if_neg hsy] at h ⊢
      by_cases h1 : ¬ (c = '-') ∧ 2 ^ 63 ≤ (parseUint64Go (intBody c rest)).1
      · rw [if_pos h1]; exact Or.inl rfl
      · rw [if_neg h1] at h ⊢
        by_cases h2 : (c = '-') ∧ 2 ^ 63 < (parseUint64Go (intBody c rest)).1
        · rw [if_pos h2]; exact Or.inr rfl
        · rw [if_neg h2] at h
          dsimp only at h
          have hm := parseUint64Go_range_val (intBody c rest) h
          by_cases hcs : c = '-'
          · exact absurd ⟨hcs, by rw [hm]; decide⟩ h2
          · exact absurd ⟨hcs, by rw [hm]; decide⟩ h1

/-- C10 (amended): for the bool, int, int64, uint, uint64 and float64 value
cells, `Set` always stores the result returned by the failed conversion and
never preserves the previous value; that stored result is the type's zero
value for syntax errors (false for bool) but the clamped boundary value for
integer range errors. -/
theorem set_overwrites_on_error :
    (∀ (old : Bool) (s : Str), boolValueSet old s = parseBoolGo s) ∧
    (∀ (old : Int) (s : Str), intValueSet old s = parseInt64Go s) ∧
    (∀ (old : Int) (s : Str), int64ValueSet old s = parseInt64Go s) ∧
    (∀ (old : Nat) (s : Str), uintValueSet old s = parseUint64Go s) ∧
    (∀ (old : Nat) (s : Str), uint64ValueSet old s = parseUint64Go s) ∧
    (∀ (old : GoFloat) (s : Str), float64ValueSet old s = parseFloatGo s) ∧
    (∀ s : Str, (parseBoolGo s).2 = true → (parseBoolGo s).1 = false) ∧
    (∀ s : Str, (parseUint64Go s).2 = Option.some GoNumErr.errSyn →
      (parseUint64Go s).1 = 0) ∧
    (∀ s : Str, (parseInt64Go s).2 = Option.some GoNumErr.errSyn →
      (parseInt64Go s).1 = 0) ∧
    (∀ s : Str, (parseUint64Go s).2 = Option.some GoNumErr.errRange →
      (parseUint64Go s).1 = maxU64) ∧
    (∀ s : Str, (parseInt64Go s).2 = Option.some GoNumErr.errRange →
      (parseInt64Go s).1 = i64max ∨ (parseInt64Go s).1 = i64min) := by
  refine ⟨fun _ _ => rfl, fun _ _ => rfl, fun _ _ => rfl, fun _ _ => rfl,
    fun _ _ => rfl, fun _ _ => rfl, ?_, parseUint64Go_syn_val,
    parseInt64Go_syn_val, parseUint64Go_range_val, parseInt64Go_range_val⟩
  intro s h
  unfold parseBoolGo at h ⊢
  by_cases h1 : s ∈ [("1").toList, ("t").toList, ("T").toList, ("true").toList,
      ("TRUE").toList, ("True").toList]
  · rw [if_pos h1] at h; simp at h
  · rw [if_neg h1] at h ⊢
    by_cases h2 : s ∈ [("0").toList, ("f").toList, ("F").toList, ("false").toList,
        ("FALSE").toList, ("False").toList]
    · rw [if_pos h2]
    · rw [if_neg h2]

/-- Witness for C10: concrete conversions — an unparsable int string stores
zero with a syntax error, overwriting the previous value, and an unparsable
bool string stores false. -/
theorem set_overwrites_on_error_witness :
    intValueSet 5 (("abc").toList) = parseInt64Go (("abc").toList) ∧
    (parseInt64Go (("abc").toList)).1 = 0 ∧
    (parseBoolGo (("nope").toList)).1 = false ∧
    boolValueSet true (("nope").toList) = parseBoolGo (("nope").toList) :=
  ⟨set_overwrites_on_error.2.1 5 (("abc").toList),
    set_overwrites_on_error.2.2.2.2.2.2.2.2.1 (("abc").toList) (by decide),
    set_overwrites_on_error.2.2.2.2.2.2.1 (("nope").toList) (by decide),
    set_overwrites_on_error.1 true (("nope").toList)⟩

/-! Scenario checks from the specification, as additional validation of the
embedding. -/

/-- Scenario A: flag `port` with default 8080, environment `PORT=9000`, no
CLI arguments; the resolved value is 9000 and the flag is recorded. -/
theorem scenarioA_env_fills_port :
    parseEnvGo [("PORT=9000").toList] (fun _ => Option.none)
        ⟨[(("port").toList, .int 8080)], [], [], []⟩ =
      (⟨[(("port").toList, .int 9000)], [("port").toList], [], []⟩, Option.none) := by
  decide

/-- Scenario B: with CLI `-port 9100` processed first, the environment pass
leaves `port` at its CLI value. -/
theorem scenarioB_cli_beats_env :
    parseGo [("PORT=9000").toList] (fun _ => Option.none) (fun _ => Option.none)
        ⟨[(("port").toList, .int 8080)], [], [("-port").toList, ("9100").toList], []⟩ =
      (⟨[(("port").toList, .int 9100)], [("port").toList], [], []⟩, Option.none) := by
  decide

/-- Scenario C: a secret file `db-password` containing `s3cr3t` and one
trailing newline resolves the undeclared-elsewhere flag to `s3cr3t`. -/
theorem scenarioC_secret_trimmed :
    parseSecretDirGo (fun _ => Option.none)
        [⟨("db-password").toList, false, Option.some (("s3cr3t\n").toList)⟩]
        ⟨[(("db-password").toList, .str [])], [], [], []⟩ =
      (⟨[(("db-password").toList, .str (("s3cr3t").toList))],
        [("db-password").toList], [], []⟩, Option.none) := by
  decide

/-- Scenario D: a bare `debug` line in the config file sets the boolean flag
to true. -/
theorem scenarioD_bare_config_bool :
    parseFileGo (fun _ => Option.some [("debug").toList]) (("c").toList)
        (fun _ => Option.none) ⟨[(("debug").toList, .boolean false)], [], [], []⟩ =
      (⟨[(("debug").toList, .boolean true)], [("debug").toList], [], []⟩,
        Option.none) := by
  decide

end MFlag
